import Mathlib

/-!
Verification development for the sginstrument enum-coverage instrumenter
(src/src/instrument.rs, src/src/lib.rs).

The tool parses Rust files with syn, walks the syntax tree with a
`VisitMut` visitor (`EnumInstrumenter`), and rewrites the tree so that a
call `sginstrument::instrument(location, state)` is executed at every
point where a bare enum variant path is produced (let-binding
initializer, assignment right-hand side, or call argument).

This file gives a shallow embedding of the syntax-tree fragment the
visitor inspects, of the visitor state, and of every visitor method, and
proves the specification's claims about them.
-/

namespace SgInstrument

/-! ## Syntax tree

The fragment of syn's tree that the visitor's overridden methods
inspect.  `Expr.otherExpr`, `Stmt.otherStmt` and `Item.otherItem` stand
for every node shape the instrumenter passes through unchanged.
Argument lists and statement lists are their own inductives so that all
visitor functions are structurally recursive.
-/

mutual
inductive Expr where
  | path (segs : List String)
  | lit (n : Nat)
  | call (f : Expr) (args : ExprList)
  | assign (lhs rhs : Expr)
  | blockExpr (body : StmtList)
  | otherExpr
deriving DecidableEq

inductive ExprList where
  | nil
  | cons (head : Expr) (tail : ExprList)
deriving DecidableEq

inductive Stmt where
  | localInit (e : Expr)
  | localNoInit
  | exprStmt (e : Expr) (semi : Bool)
  | itemStmt (i : Item)
  | otherStmt
deriving DecidableEq

inductive Item where
  | enumItem (name : String)
  | fnItem (isConst : Bool) (body : StmtList)
  | constItem (e : Expr)
  | staticItem (e : Expr)
  | otherItem
deriving DecidableEq

inductive StmtList where
  | nil
  | cons (head : Stmt) (tail : StmtList)
deriving DecidableEq
end

/-! ## Visitor state

`EnumInstrumenter` from instrument.rs.  `enum_types` is the `HashSet` of
enum names seen so far (only membership is queried, so a duplicate-free
list is an adequate model); `enum_variants` is the
`HashMap<String, u32>` from variant key to state id (only keyed lookup
and `len()` are used, so an association list extended at the end is an
adequate model and makes the insertion order explicit);
`location_counter` and `in_const_context` are the two scalar fields.
The extra field `emitted` is a ghost trace recording, in order, the
`(location, state)` payload of every instrumentation call the visitor
generates; it changes nothing observable and exists so that run-wide
claims about emitted calls can be stated.
-/

structure EnumInstrumenter where
  enum_types : List String
  enum_variants : List (String × Nat)
  location_counter : Nat
  in_const_context : Bool
  emitted : List (Nat × Nat)
deriving DecidableEq

/-- EnumInstrumenter::new -/
def EnumInstrumenter.new : EnumInstrumenter :=
  { enum_types := []
    enum_variants := []
    location_counter := 1
    in_const_context := false
    emitted := [] }

/-- Association-list lookup modelling HashMap::get on enum_variants. -/
def lookupId : List (String × Nat) → String → Option Nat
  | [], _ => none
  | (k, v) :: rest, key => if k = key then some v else lookupId rest key

/-- HashSet::insert on enum_types: add the name if it is not present. -/
def insertEnumType (n : String) (ts : List String) : List String :=
  if n ∈ ts then ts else ts ++ [n]

/-- The statement `sginstrument::instrument(location, state_value);`
produced by parse_quote! in create_instrumentation_call. -/
def instrCallStmt (location state_value : Nat) : Stmt :=
  Stmt.exprStmt
    (Expr.call (Expr.path ["sginstrument", "instrument"])
      (ExprList.cons (Expr.lit location)
        (ExprList.cons (Expr.lit state_value) ExprList.nil)))
    true

/-- The block `{ sginstrument::instrument(location, state_value); arg }`
that visit_expr_call_mut substitutes for a classified call argument. -/
def wrapExpr (location state_value : Nat) (arg : Expr) : Expr :=
  Expr.blockExpr
    (StmtList.cons (instrCallStmt location state_value)
      (StmtList.cons (Stmt.exprStmt arg false) StmtList.nil))

/-- EnumInstrumenter::extract_enum_info: a path classifies as an enum
variant usage when it has at least two segments and the second-to-last
segment is a known enum type; the returned pair is that segment and the
last segment. -/
def extract_enum_info (s : EnumInstrumenter) (segs : List String) :
    Option (String × String) :=
  if 2 ≤ segs.length then
    match segs.getLast? with
    | some variant =>
        let enum_type := segs.getD (segs.length - 2) ""
        if enum_type ∈ s.enum_types then some (enum_type, variant) else none
    | none => none
  else none

/-- EnumInstrumenter::create_instrumentation_call.  Returns the
`(location, state_value)` payload of the generated statement
`sginstrument::instrument(location, state_value);` (materialized by
`instrCallStmt`), or `none` in a const context.  On emission the
location counter advances, the variant registry gains the key when it is
new (with id = current registry size, as in
`entry(key).or_insert(enum_variants.len())`), and the ghost trace
records the payload. -/
def create_instrumentation_call (s : EnumInstrumenter)
    (enum_name variant_name : String) :
    Option (Nat × Nat) × EnumInstrumenter :=
  if s.in_const_context then (none, s)
  else
    let location := s.location_counter
    let variant_key := enum_name ++ "::" ++ variant_name
    let next_state_value := s.enum_variants.length
    match lookupId s.enum_variants variant_key with
    | some state_value =>
        (some (location, state_value),
         { s with
            location_counter := s.location_counter + 1
            emitted := s.emitted ++ [(location, state_value)] })
    | none =>
        (some (location, next_state_value),
         { s with
            location_counter := s.location_counter + 1
            enum_variants := s.enum_variants ++ [(variant_key, next_state_value)]
            emitted := s.emitted ++ [(location, next_state_value)] })

/-- The per-statement step of the loop in visit_block_mut: a let binding
whose initializer is a bare path, or an expression statement that is an
assignment whose right-hand side is a bare path, is classified; a
classified statement (outside const context) gets an instrumentation
call injected before it.  Returns the payload of the injected call, if
any. -/
def stmt_injection (s : EnumInstrumenter) : Stmt → Option (Nat × Nat) × EnumInstrumenter
  | Stmt.localInit (Expr.path segs) =>
      match extract_enum_info s segs with
      | some (en, vn) => create_instrumentation_call s en vn
      | none => (none, s)
  | Stmt.exprStmt (Expr.assign _ (Expr.path segs)) _ =>
      match extract_enum_info s segs with
      | some (en, vn) => create_instrumentation_call s en vn
      | none => (none, s)
  | _ => (none, s)

/-- The full first phase of visit_block_mut: one pass over the block's
statements, producing for each statement the payload of the call
injected before it (or none).  The rewritten statement list is the
original list with `instrCallStmt` statements interleaved before the
annotated statements; `visit_anns` below performs that interleaving. -/
def instrument_pass (s : EnumInstrumenter) :
    StmtList → List (Option (Nat × Nat)) × EnumInstrumenter
  | StmtList.nil => ([], s)
  | StmtList.cons stmt rest =>
      let p1 := stmt_injection s stmt
      let p2 := instrument_pass p1.2 rest
      (p1.1 :: p2.1, p2.2)

/-- The wrapping loop of visit_expr_call_mut: each argument that is a
bare classified path (outside const context) is annotated with the
payload of its instrumentation call; the argument is then replaced by
`wrapExpr payload arg`. -/
def wrap_args (s : EnumInstrumenter) :
    ExprList → List (Option (Nat × Nat)) × EnumInstrumenter
  | ExprList.nil => ([], s)
  | ExprList.cons a rest =>
      let p1 :=
        match a with
        | Expr.path segs =>
            match extract_enum_info s segs with
            | some (en, vn) => create_instrumentation_call s en vn
            | none => (none, s)
        | _ => (none, s)
      let p2 := wrap_args p1.2 rest
      (p1.1 :: p2.1, p2.2)

/-! ## The visitor

`visit_expr`/`visit_stmt`/`visit_item` are the VisitMut methods.  After
the rewriting phase of visit_block_mut (resp. visit_expr_call_mut), syn
recursively visits the rewritten statement list (resp. argument list),
which includes the freshly injected `instrCallStmt` statements and
`wrapExpr` blocks.  Visiting such an injected node is the identity on
both the node and the state: its call arguments are integer literals,
its statements match no instrumentation pattern, and no visitor method
mutates state on them.  `visit_anns` and `visit_args` therefore rebuild
the rewritten list from the annotations and visit only the original
statements/arguments, emitting the injected nodes unchanged; the
theorems `visit_stmt_instrCallStmt` and `visit_expr_wrapExpr` below
prove that the general visitor indeed leaves the injected nodes and the
state unchanged, so this is exactly syn's traversal.
-/

mutual
def visit_expr (s : EnumInstrumenter) : Expr → Expr × EnumInstrumenter
  | Expr.path segs => (Expr.path segs, s)
  | Expr.lit n => (Expr.lit n, s)
  | Expr.call f args =>
      let pw := wrap_args s args
      let pf := visit_expr pw.2 f
      let pa := visit_args pf.2 pw.1 args
      (Expr.call pf.1 pa.1, pa.2)
  | Expr.assign l r =>
      let pl := visit_expr s l
      let pr := visit_expr pl.2 r
      (Expr.assign pl.1 pr.1, pr.2)
  | Expr.blockExpr body =>
      let pp := instrument_pass s body
      let pv := visit_anns pp.2 pp.1 body
      (Expr.blockExpr pv.1, pv.2)
  | Expr.otherExpr => (Expr.otherExpr, s)

def visit_args (s : EnumInstrumenter) :
    List (Option (Nat × Nat)) → ExprList → ExprList × EnumInstrumenter
  | some (l, st) :: annRest, ExprList.cons a rest =>
      let pr := visit_args s annRest rest
      (ExprList.cons (wrapExpr l st a) pr.1, pr.2)
  | none :: annRest, ExprList.cons a rest =>
      let pa := visit_expr s a
      let pr := visit_args pa.2 annRest rest
      (ExprList.cons pa.1 pr.1, pr.2)
  | [], ExprList.cons a rest =>
      let pa := visit_expr s a
      let pr := visit_args pa.2 [] rest
      (ExprList.cons pa.1 pr.1, pr.2)
  | _, ExprList.nil => (ExprList.nil, s)

def visit_stmt (s : EnumInstrumenter) : Stmt → Stmt × EnumInstrumenter
  | Stmt.localInit e =>
      let pe := visit_expr s e
      (Stmt.localInit pe.1, pe.2)
  | Stmt.localNoInit => (Stmt.localNoInit, s)
  | Stmt.exprStmt e semi =>
      let pe := visit_expr s e
      (Stmt.exprStmt pe.1 semi, pe.2)
  | Stmt.itemStmt i =>
      let pi := visit_item s i
      (Stmt.itemStmt pi.1, pi.2)
  | Stmt.otherStmt => (Stmt.otherStmt, s)

def visit_anns (s : EnumInstrumenter) :
    List (Option (Nat × Nat)) → StmtList → StmtList × EnumInstrumenter
  | some (l, st) :: annRest, StmtList.cons st1 rest =>
      let ps := visit_stmt s st1
      let pr := visit_anns ps.2 annRest rest
      (StmtList.cons (instrCallStmt l st) (StmtList.cons ps.1 pr.1), pr.2)
  | none :: annRest, StmtList.cons st1 rest =>
      let ps := visit_stmt s st1
      let pr := visit_anns ps.2 annRest rest
      (StmtList.cons ps.1 pr.1, pr.2)
  | [], StmtList.cons st1 rest =>
      let ps := visit_stmt s st1
      let pr := visit_anns ps.2 [] rest
      (StmtList.cons ps.1 pr.1, pr.2)
  | _, StmtList.nil => (StmtList.nil, s)

def visit_item (s : EnumInstrumenter) : Item → Item × EnumInstrumenter
  | Item.enumItem n =>
      (Item.enumItem n, { s with enum_types := insertEnumType n s.enum_types })
  | Item.fnItem isConst body =>
      let was := s.in_const_context
      let s0 := if isConst then { s with in_const_context := true } else s
      let pp := instrument_pass s0 body
      let pv := visit_anns pp.2 pp.1 body
      (Item.fnItem isConst pv.1, { pv.2 with in_const_context := was })
  | Item.constItem e =>
      let was := s.in_const_context
      let pe := visit_expr { s with in_const_context := true } e
      (Item.constItem pe.1, { pe.2 with in_const_context := was })
  | Item.staticItem e =>
      let was := s.in_const_context
      let pe := visit_expr { s with in_const_context := true } e
      (Item.staticItem pe.1, { pe.2 with in_const_context := was })
  | Item.otherItem => (Item.otherItem, s)
end

/-- visit_block_mut as a whole: instrumentation pass, then recursive
visit of the rewritten statement list. -/
def visit_block (s : EnumInstrumenter) (body : StmtList) :
    StmtList × EnumInstrumenter :=
  let pp := instrument_pass s body
  visit_anns pp.2 pp.1 body

/-- visit_file_mut: visit the items of one file in order. -/
def visit_file (s : EnumInstrumenter) : List Item → List Item × EnumInstrumenter
  | [] => ([], s)
  | i :: rest =>
      let pi := visit_item s i
      let pr := visit_file pi.2 rest
      (pi.1 :: pr.1, pr.2)

/-- A whole run over a file set: one instrumenter state threaded
through every file, as process_file is called file after file with the
same `&mut EnumInstrumenter`. -/
def visit_files (s : EnumInstrumenter) :
    List (List Item) → List (List Item) × EnumInstrumenter
  | [] => ([], s)
  | f :: rest =>
      let pf := visit_file s f
      let pr := visit_files pf.2 rest
      (pf.1 :: pr.1, pr.2)

/-! ## State evolution -/

def Evolves (s s' : EnumInstrumenter) : Prop :=
  s'.in_const_context = s.in_const_context ∧
  s.enum_variants <+: s'.enum_variants ∧
  (∀ n, n ∈ s.enum_types → n ∈ s'.enum_types) ∧
  ∃ t, s'.emitted = s.emitted ++ t ∧
       t.map Prod.fst = List.range' s.location_counter t.length ∧
       s'.location_counter = s.location_counter + t.length

theorem evolves_refl (s : EnumInstrumenter) : Evolves s s :=
  ⟨rfl, List.prefix_refl _, fun _ h => h, ⟨[], by simp⟩⟩

theorem evolves_trans {s s' s'' : EnumInstrumenter}
    (h1 : Evolves s s') (h2 : Evolves s' s'') : Evolves s s'' := by
  obtain ⟨f1, p1, ty1, t1, e1, m1, c1⟩ := h1
  obtain ⟨f2, p2, ty2, t2, e2, m2, c2⟩ := h2
  refine ⟨f2.trans f1, p1.trans p2, fun n h => ty2 n (ty1 n h), t1 ++ t2, ?_, ?_, ?_⟩
  · rw [e2, e1, List.append_assoc]
  · rw [List.map_append, m1, m2, c1, List.length_append]
    rw [List.range'_append_1, Nat.add_comm t2.length t1.length]
  · rw [c2, c1, List.length_append, Nat.add_assoc]

theorem create_evolves (s : EnumInstrumenter) (en vn : String) :
    Evolves s (create_instrumentation_call s en vn).2 := by
  unfold create_instrumentation_call
  cases hc : s.in_const_context with
  | true =>
      simp only [hc]
      exact evolves_refl s
  | false =>
      simp only [hc]
      cases hl : lookupId s.enum_variants (en ++ "::" ++ vn) with
      | some v =>
          simp only [hl]
          refine ⟨hc.symm, List.prefix_refl _, fun _ h => h,
            ⟨[(s.location_counter, v)], rfl, ?_, rfl⟩⟩
          simp [List.range']
      | none =>
          simp only [hl]
          refine ⟨hc.symm, ⟨[(en ++ "::" ++ vn, s.enum_variants.length)], rfl⟩,
            fun _ h => h,
            ⟨[(s.location_counter, s.enum_variants.length)], rfl, ?_, rfl⟩⟩
          simp [List.range']

theorem stmt_injection_evolves (s : EnumInstrumenter) (st : Stmt) :
    Evolves s (stmt_injection s st).2 := by
  cases st with
  | localInit e =>
      cases e with
      | path segs =>
          simp only [stmt_injection]
          cases h : extract_enum_info s segs with
          | some p =>
              cases p with
              | mk en vn => simpa [h] using create_evolves s en vn
          | none => simpa [h] using evolves_refl s
      | lit n => exact evolves_refl s
      | call f args => exact evolves_refl s
      | assign l r => exact evolves_refl s
      | blockExpr b => exact evolves_refl s
      | otherExpr => exact evolves_refl s
  | localNoInit => exact evolves_refl s
  | exprStmt e semi =>
      cases e with
      | assign l r =>
          cases r with
          | path segs =>
              simp only [stmt_injection]
              cases h : extract_enum_info s segs with
              | some p =>
                  cases p with
                  | mk en vn => simpa [h] using create_evolves s en vn
              | none => simpa [h] using evolves_refl s
          | lit n => exact evolves_refl s
          | call f args => exact evolves_refl s
          | assign a b => exact evolves_refl s
          | blockExpr b => exact evolves_refl s
          | otherExpr => exact evolves_refl s
      | path segs => exact evolves_refl s
      | lit n => exact evolves_refl s
      | call f args => exact evolves_refl s
      | blockExpr b => exact evolves_refl s
      | otherExpr => exact evolves_refl s
  | itemStmt i => exact evolves_refl s
  | otherStmt => exact evolves_refl s

theorem instrument_pass_evolves (s : EnumInstrumenter) (body : StmtList) :
    Evolves s (instrument_pass s body).2 := by
  cases body with
  | nil => exact evolves_refl s
  | cons st rest =>
      simp only [instrument_pass]
      exact evolves_trans (stmt_injection_evolves s st) (instrument_pass_evolves _ rest)

theorem wrap_args_evolves (s : EnumInstrumenter) (args : ExprList) :
    Evolves s (wrap_args s args).2 := by
  cases args with
  | nil => exact evolves_refl s
  | cons a rest =>
      simp only [wrap_args]
      refine evolves_trans ?_ (wrap_args_evolves _ rest)
      cases a with
      | path segs =>
          cases h : extract_enum_info s segs with
          | some p =>
              cases p with
              | mk en vn => simpa [h] using create_evolves s en vn
          | none => simpa [h] using evolves_refl s
      | lit n => exact evolves_refl s
      | call f args2 => exact evolves_refl s
      | assign l r => exact evolves_refl s
      | blockExpr b => exact evolves_refl s
      | otherExpr => exact evolves_refl s

theorem evolves_restore (s : EnumInstrumenter) (b : Bool) (s' : EnumInstrumenter)
    (h : Evolves { s with in_const_context := b } s') :
    Evolves s { s' with in_const_context := s.in_const_context } := by
  obtain ⟨hf, hp, ht, t, he, hm, hc⟩ := h
  exact ⟨rfl, hp, ht, t, he, hm, hc⟩

mutual
theorem visit_expr_evolves (s : EnumInstrumenter) (e : Expr) :
    Evolves s (visit_expr s e).2 := by
  cases e with
  | path segs => exact evolves_refl s
  | lit n => exact evolves_refl s
  | call f args =>
      simp only [visit_expr]
      exact evolves_trans (wrap_args_evolves s args)
        (evolves_trans (visit_expr_evolves _ f) (visit_args_evolves _ _ args))
  | assign l r =>
      simp only [visit_expr]
      exact evolves_trans (visit_expr_evolves s l) (visit_expr_evolves _ r)
  | blockExpr body =>
      simp only [visit_expr]
      exact evolves_trans (instrument_pass_evolves s body) (visit_anns_evolves _ _ body)
  | otherExpr => exact evolves_refl s

theorem visit_args_evolves (s : EnumInstrumenter)
    (anns : List (Option (Nat × Nat))) (args : ExprList) :
    Evolves s (visit_args s anns args).2 := by
  cases args with
  | nil =>
      cases anns with
      | nil => exact evolves_refl s
      | cons a ar => simp only [visit_args]; exact evolves_refl s
  | cons a rest =>
      cases anns with
      | nil =>
          simp only [visit_args]
          exact evolves_trans (visit_expr_evolves s a) (visit_args_evolves _ _ rest)
      | cons ann annRest =>
          cases ann with
          | none =>
              simp only [visit_args]
              exact evolves_trans (visit_expr_evolves s a) (visit_args_evolves _ _ rest)
          | some p =>
              cases p with
              | mk l st =>
                  simp only [visit_args]
                  exact visit_args_evolves _ _ rest

theorem visit_stmt_evolves (s : EnumInstrumenter) (st : Stmt) :
    Evolves s (visit_stmt s st).2 := by
  cases st with
  | localInit e => simp only [visit_stmt]; exact visit_expr_evolves s e
  | localNoInit => exact evolves_refl s
  | exprStmt e semi => simp only [visit_stmt]; exact visit_expr_evolves s e
  | itemStmt i => simp only [visit_stmt]; exact visit_item_evolves s i
  | otherStmt => exact evolves_refl s

theorem visit_anns_evolves (s : EnumInstrumenter)
    (anns : List (Option (Nat × Nat))) (body : StmtList) :
    Evolves s (visit_anns s anns body).2 := by
  cases body with
  | nil =>
      cases anns with
      | nil => exact evolves_refl s
      | cons a ar => simp only [visit_anns]; exact evolves_refl s
  | cons st1 rest =>
      cases anns with
      | nil =>
          simp only [visit_anns]
          exact evolves_trans (visit_stmt_evolves s st1) (visit_anns_evolves _ _ rest)
      | cons ann annRest =>
          cases ann with
          | none =>
              simp only [visit_anns]
              exact evolves_trans (visit_stmt_evolves s st1) (visit_anns_evolves _ _ rest)
          | some p =>
              cases p with
              | mk l st =>
                  simp only [visit_anns]
                  exact evolves_trans (visit_stmt_evolves s st1) (visit_anns_evolves _ _ rest)

theorem visit_item_evolves (s : EnumInstrumenter) (i : Item) :
    Evolves s (visit_item s i).2 := by
  cases i with
  | enumItem n =>
      refine ⟨rfl, List.prefix_refl _, fun m h => ?_, ⟨[], by simp [visit_item]⟩⟩
      simp only [visit_item, insertEnumType]
      by_cases hn : n ∈ s.enum_types
      · simpa [hn] using h
      · simp only [hn, if_false]
        exact List.mem_append_left _ h
  | fnItem isConst body =>
      simp only [visit_item]
      cases isConst with
      | false =>
          exact evolves_restore s s.in_const_context _
            (evolves_trans (instrument_pass_evolves _ body) (visit_anns_evolves _ _ body))
      | true =>
          exact evolves_restore s true _
            (evolves_trans (instrument_pass_evolves _ body) (visit_anns_evolves _ _ body))
  | constItem e =>
      simp only [visit_item]
      exact evolves_restore s true _ (visit_expr_evolves _ e)
  | staticItem e =>
      simp only [visit_item]
      exact evolves_restore s true _ (visit_expr_evolves _ e)
  | otherItem => exact evolves_refl s
end

theorem visit_file_evolves (s : EnumInstrumenter) (file : List Item) :
    Evolves s (visit_file s file).2 := by
  induction file generalizing s with
  | nil => exact evolves_refl s
  | cons i rest ih =>
      simp only [visit_file]
      exact evolves_trans (visit_item_evolves s i) (ih _)

theorem visit_files_evolves (s : EnumInstrumenter) (files : List (List Item)) :
    Evolves s (visit_files s files).2 := by
  induction files generalizing s with
  | nil => exact evolves_refl s
  | cons f rest ih =>
      simp only [visit_files]
      exact evolves_trans (visit_file_evolves s f) (ih _)

/-! ## Const-context frame

While `in_const_context` is true, create_instrumentation_call refuses to
emit, so the whole traversal of a const scope leaves the syntax tree and
every state component except `enum_types` (enum declarations are still
recorded) unchanged.
-/

def noneAnnsS : StmtList → List (Option (Nat × Nat))
  | StmtList.nil => []
  | StmtList.cons _ rest => none :: noneAnnsS rest

def noneAnnsE : ExprList → List (Option (Nat × Nat))
  | ExprList.nil => []
  | ExprList.cons _ rest => none :: noneAnnsE rest

theorem create_const (s : EnumInstrumenter) (en vn : String)
    (h : s.in_const_context = true) :
    create_instrumentation_call s en vn = (none, s) := by
  unfold create_instrumentation_call
  simp [h]

theorem stmt_injection_const (s : EnumInstrumenter) (st : Stmt)
    (h : s.in_const_context = true) :
    stmt_injection s st = (none, s) := by
  cases st with
  | localInit e =>
      cases e with
      | path segs =>
          simp only [stmt_injection]
          cases he : extract_enum_info s segs with
          | some p =>
              cases p with
              | mk en vn => simp [he, create_const s en vn h]
          | none => simp [he]
      | lit n => rfl
      | call f args => rfl
      | assign l r => rfl
      | blockExpr b => rfl
      | otherExpr => rfl
  | localNoInit => rfl
  | exprStmt e semi =>
      cases e with
      | assign l r =>
          cases r with
          | path segs =>
              simp only [stmt_injection]
              cases he : extract_enum_info s segs with
              | some p =>
                  cases p with
                  | mk en vn => simp [he, create_const s en vn h]
              | none => simp [he]
          | lit n => rfl
          | call f args => rfl
          | assign a b => rfl
          | blockExpr b => rfl
          | otherExpr => rfl
      | path segs => rfl
      | lit n => rfl
      | call f args => rfl
      | blockExpr b => rfl
      | otherExpr => rfl
  | itemStmt i => rfl
  | otherStmt => rfl

theorem instrument_pass_const (s : EnumInstrumenter) (body : StmtList)
    (h : s.in_const_context = true) :
    instrument_pass s body = (noneAnnsS body, s) := by
  cases body with
  | nil => rfl
  | cons st rest =>
      simp only [instrument_pass, stmt_injection_const s st h,
        instrument_pass_const s rest h, noneAnnsS]

theorem wrap_args_const (s : EnumInstrumenter) (args : ExprList)
    (h : s.in_const_context = true) :
    wrap_args s args = (noneAnnsE args, s) := by
  cases args with
  | nil => rfl
  | cons a rest =>
      have hbase :
          (match a with
            | Expr.path segs =>
                match extract_enum_info s segs with
                | some (en, vn) => create_instrumentation_call s en vn
                | none => (none, s)
            | _ => ((none : Option (Nat × Nat)), s)) = (none, s) := by
        cases a with
        | path segs =>
            cases he : extract_enum_info s segs with
            | some p =>
                cases p with
                | mk en vn => simp [he, create_const s en vn h]
            | none => simp [he]
        | lit n => rfl
        | call f args2 => rfl
        | assign l r => rfl
        | blockExpr b => rfl
        | otherExpr => rfl
      simp only [wrap_args, hbase, wrap_args_const s rest h, noneAnnsE]

mutual
theorem visit_expr_const (s : EnumInstrumenter) (e : Expr)
    (h : s.in_const_context = true) :
    ∃ ts, visit_expr s e = (e, { s with enum_types := ts }) := by
  cases e with
  | path segs => exact ⟨s.enum_types, rfl⟩
  | lit n => exact ⟨s.enum_types, rfl⟩
  | call f args =>
      obtain ⟨ts1, h1⟩ := visit_expr_const s f h
      obtain ⟨ts2, h2⟩ := visit_args_const { s with enum_types := ts1 } args h
      refine ⟨ts2, ?_⟩
      simp only [visit_expr, wrap_args_const s args h, h1, h2]
  | assign l r =>
      obtain ⟨ts1, h1⟩ := visit_expr_const s l h
      obtain ⟨ts2, h2⟩ := visit_expr_const { s with enum_types := ts1 } r h
      refine ⟨ts2, ?_⟩
      simp only [visit_expr, h1, h2]
  | blockExpr body =>
      obtain ⟨ts1, h1⟩ := visit_anns_const s body h
      refine ⟨ts1, ?_⟩
      simp only [visit_expr, instrument_pass_const s body h, h1]
  | otherExpr => exact ⟨s.enum_types, rfl⟩

theorem visit_args_const (s : EnumInstrumenter) (args : ExprList)
    (h : s.in_const_context = true) :
    ∃ ts, visit_args s (noneAnnsE args) args = (args, { s with enum_types := ts }) := by
  cases args with
  | nil => exact ⟨s.enum_types, rfl⟩
  | cons a rest =>
      obtain ⟨ts1, h1⟩ := visit_expr_const s a h
      obtain ⟨ts2, h2⟩ := visit_args_const { s with enum_types := ts1 } rest h
      refine ⟨ts2, ?_⟩
      simp only [noneAnnsE, visit_args, h1, h2]

theorem visit_stmt_const (s : EnumInstrumenter) (st : Stmt)
    (h : s.in_const_context = true) :
    ∃ ts, visit_stmt s st = (st, { s with enum_types := ts }) := by
  cases st with
  | localInit e =>
      obtain ⟨ts1, h1⟩ := visit_expr_const s e h
      exact ⟨ts1, by simp only [visit_stmt, h1]⟩
  | localNoInit => exact ⟨s.enum_types, rfl⟩
  | exprStmt e semi =>
      obtain ⟨ts1, h1⟩ := visit_expr_const s e h
      exact ⟨ts1, by simp only [visit_stmt, h1]⟩
  | itemStmt i =>
      obtain ⟨ts1, h1⟩ := visit_item_const s i h
      exact ⟨ts1, by simp only [visit_stmt, h1]⟩
  | otherStmt => exact ⟨s.enum_types, rfl⟩

theorem visit_anns_const (s : EnumInstrumenter) (body : StmtList)
    (h : s.in_const_context = true) :
    ∃ ts, visit_anns s (noneAnnsS body) body = (body, { s with enum_types := ts }) := by
  cases body with
  | nil => exact ⟨s.enum_types, rfl⟩
  | cons st rest =>
      obtain ⟨ts1, h1⟩ := visit_stmt_const s st h
      obtain ⟨ts2, h2⟩ := visit_anns_const { s with enum_types := ts1 } rest h
      refine ⟨ts2, ?_⟩
      simp only [noneAnnsS, visit_anns, h1, h2]

theorem visit_item_const (s : EnumInstrumenter) (i : Item)
    (h : s.in_const_context = true) :
    ∃ ts, visit_item s i = (i, { s with enum_types := ts }) := by
  cases i with
  | enumItem n =>
      refine ⟨insertEnumType n s.enum_types, ?_⟩
      simp only [visit_item]
  | fnItem isConst body =>
      have hs : ({ s with in_const_context := true } : EnumInstrumenter) = s := by
        rw [← h]
      have hif :
          (if isConst = true then ({ s with in_const_context := true } : EnumInstrumenter)
            else s) = s := by
        cases isConst
        · rfl
        · exact hs
      obtain ⟨ts1, h1⟩ := visit_anns_const s body h
      refine ⟨ts1, ?_⟩
      simp only [visit_item, hif, instrument_pass_const s body h, h1]
  | constItem e =>
      have hs : ({ s with in_const_context := true } : EnumInstrumenter) = s := by
        rw [← h]
      obtain ⟨ts1, h1⟩ := visit_expr_const s e h
      refine ⟨ts1, ?_⟩
      simp only [visit_item, hs, h1]
  | staticItem e =>
      have hs : ({ s with in_const_context := true } : EnumInstrumenter) = s := by
        rw [← h]
      obtain ⟨ts1, h1⟩ := visit_expr_const s e h
      refine ⟨ts1, ?_⟩
      simp only [visit_item, hs, h1]
  | otherItem => exact ⟨s.enum_types, rfl⟩
end

/-! ## Injected nodes are fixed points of the visitor

After rewriting, syn's default traversal also visits the freshly
injected statements and wrapping blocks.  These two theorems show that
such a visit is the identity on the node and on the state, which is why
`visit_anns` and `visit_args` emit the injected nodes directly. -/

theorem visit_stmt_instrCallStmt (s : EnumInstrumenter) (l st : Nat) :
    visit_stmt s (instrCallStmt l st) = (instrCallStmt l st, s) := rfl

theorem visit_expr_wrapExpr (s : EnumInstrumenter) (l st : Nat) (segs : List String) :
    visit_expr s (wrapExpr l st (Expr.path segs)) = (wrapExpr l st (Expr.path segs), s) := rfl

/-! ## Runtime evaluation model

A model of how the generated Rust fragment executes, used to state that
wrapping a call argument preserves its value: evaluation returns the
trace of executed `sginstrument::instrument` calls, in order, and the
produced value (as a normal form; `none` for unit-valued or unmodelled
expressions).  A block runs its statements in order and yields its
trailing expression; calls evaluate callee then arguments left to
right; an assignment evaluates its right-hand side. -/

def instrPayload : Expr → ExprList → Option (Nat × Nat)
  | Expr.path segs,
    ExprList.cons (Expr.lit l) (ExprList.cons (Expr.lit st) ExprList.nil) =>
      if segs = ["sginstrument", "instrument"] then some (l, st) else none
  | _, _ => none

mutual
def evalExpr : Expr → List (Nat × Nat) × Option Expr
  | Expr.path segs => ([], some (Expr.path segs))
  | Expr.lit n => ([], some (Expr.lit n))
  | Expr.call f args =>
      match instrPayload f args with
      | some p => ([p], none)
      | none => ((evalExpr f).1 ++ evalArgsTrace args, some (Expr.call f args))
  | Expr.assign _ r => ((evalExpr r).1, none)
  | Expr.blockExpr body => evalBlock body
  | Expr.otherExpr => ([], none)

def evalArgsTrace : ExprList → List (Nat × Nat)
  | ExprList.nil => []
  | ExprList.cons a rest => (evalExpr a).1 ++ evalArgsTrace rest

def evalStmtTrace : Stmt → List (Nat × Nat)
  | Stmt.localInit e => (evalExpr e).1
  | Stmt.localNoInit => []
  | Stmt.exprStmt e _ => (evalExpr e).1
  | Stmt.itemStmt _ => []
  | Stmt.otherStmt => []

def evalBlock : StmtList → List (Nat × Nat) × Option Expr
  | StmtList.nil => ([], none)
  | StmtList.cons (Stmt.exprStmt e false) StmtList.nil => evalExpr e
  | StmtList.cons st rest => (evalStmtTrace st ++ (evalBlock rest).1, (evalBlock rest).2)
end

/-! ## The test scenario of tests::test_enum_instrumentation -/

def sl : List Stmt → StmtList := fun l => l.foldr StmtList.cons StmtList.nil

def el : List Expr → ExprList := fun l => l.foldr ExprList.cons ExprList.nil

/-- The input of tests::test_enum_instrumentation: enum Status with
variants Active, Inactive, Pending(i32), and fn main with the four
statements of the scenario. -/
def testFile : List Item :=
  [Item.enumItem "Status",
   Item.fnItem false (sl
     [Stmt.localInit (Expr.path ["Status", "Active"]),
      Stmt.localInit (Expr.call (Expr.path ["Status", "Pending"])
        (el [Expr.lit 42])),
      Stmt.exprStmt (Expr.assign (Expr.path ["other"])
        (Expr.path ["Status", "Inactive"])) true,
      Stmt.exprStmt (Expr.call (Expr.path ["process_status"])
        (el [Expr.path ["Status", "Active"]])) true])]

/-- The instrumented output the scenario expects. -/
def testFileOut : List Item :=
  [Item.enumItem "Status",
   Item.fnItem false (sl
     [instrCallStmt 1 0,
      Stmt.localInit (Expr.path ["Status", "Active"]),
      Stmt.localInit (Expr.call (Expr.path ["Status", "Pending"])
        (el [Expr.lit 42])),
      instrCallStmt 2 1,
      Stmt.exprStmt (Expr.assign (Expr.path ["other"])
        (Expr.path ["Status", "Inactive"])) true,
      Stmt.exprStmt (Expr.call (Expr.path ["process_status"])
        (el [wrapExpr 3 0 (Expr.path ["Status", "Active"])])) true])]

/-! ## Driver model

process_file, process_directory and main from instrument.rs.  Reading,
parsing and writing are external collaborators; a file on disk is
modelled by its path, whether the walker sees it as a .rs file, the
outcome of read+parse, and the outcome of the final write.  A directory
walk is a list of entries, each either a walker error or a file. -/

structure SimEntry where
  path : String
  isRsFile : Bool
  parsed : Except String (List Item)
  writeOk : Except String Unit

/-- Errors reaching main's caller: either syn/io errors propagated raw
(no path attached), or InstrumentError::ErrorProcessing(path, cause). -/
inductive RunError where
  | errorProcessing (path : String) (msg : String)
  | external (msg : String)

/-- process_file: read and parse (the `parsed` outcome), instrument the
tree, serialize and write back (the `writeOk` outcome).  Every error is
propagated raw with `?`, without the file's path attached. -/
def process_file (inst : EnumInstrumenter) (f : SimEntry) :
    Except String (List Item × EnumInstrumenter) :=
  match f.parsed with
  | Except.error e => Except.error e
  | Except.ok tree =>
      let p := visit_file inst tree
      match f.writeOk with
      | Except.error e => Except.error e
      | Except.ok _ => Except.ok p

/-- process_directory: walk the entries in order; a walker entry error
propagates raw via `?`; every file entry with the .rs extension is
processed with the shared instrumenter state, and a process_file error
is wrapped as InstrumentError::ErrorProcessing(path, cause) and returned
at once, aborting the walk. -/
def process_directory (inst : EnumInstrumenter) :
    List (Except String SimEntry) → Except RunError EnumInstrumenter
  | [] => Except.ok inst
  | Except.error e :: _ => Except.error (RunError.external e)
  | Except.ok f :: rest =>
      if f.isRsFile then
        match process_file inst f with
        | Except.error e => Except.error (RunError.errorProcessing f.path e)
        | Except.ok p => process_directory p.2 rest
      else process_directory inst rest

/-- The single-file branch of main: `process_file(&mut instrumenter, path)?`
propagates a process_file error to the caller unchanged, without
wrapping it with the path. -/
def run_single_file (inst : EnumInstrumenter) (f : SimEntry) :
    Except RunError EnumInstrumenter :=
  match process_file inst f with
  | Except.error e => Except.error (RunError.external e)
  | Except.ok p => Except.ok p.2

theorem extract_two (s : EnumInstrumenter) (a b : String) :
    extract_enum_info s [a, b] = if a ∈ s.enum_types then some (a, b) else none := rfl

/-- C2 helper: full characterization of the classifier's Some results. -/
theorem extract_enum_info_some (s : EnumInstrumenter) (segs : List String)
    (en vn : String) :
    extract_enum_info s segs = some (en, vn) ↔
      2 ≤ segs.length ∧ segs.getD (segs.length - 2) "" = en ∧
      segs.getLast? = some vn ∧ en ∈ s.enum_types := by
  unfold extract_enum_info
  by_cases hlen : 2 ≤ segs.length
  · simp only [hlen, if_true, true_and]
    cases hl : segs.getLast? with
    | none =>
        exfalso
        rcases segs with _ | ⟨x, xs⟩
        · simp at hlen
        · simp at hl
    | some v =>
        by_cases hm : segs.getD (segs.length - 2) "" ∈ s.enum_types
        · simp only [hm, if_true, Option.some.injEq, Prod.mk.injEq]
          constructor
          · rintro ⟨h1, h2⟩
            exact ⟨h1, h2, h1 ▸ hm⟩
          · rintro ⟨h1, h2, -⟩
            exact ⟨h1, h2⟩
        · simp only [hm, if_false]
          constructor
          · intro h; exact absurd h (by simp)
          · rintro ⟨h1, -, h3⟩
            exact absurd (h1 ▸ h3) hm
  · simp only [hlen, if_false]
    constructor
    · intro h; exact absurd h (by simp)
    · rintro ⟨h1, -⟩
      exact h1.elim

/-- C2 helper: only the last two segments matter. -/
theorem extract_enum_info_drop_prefix (s : EnumInstrumenter)
    (pre : List String) (a b : String) :
    extract_enum_info s (pre ++ [a, b]) = extract_enum_info s [a, b] := by
  unfold extract_enum_info
  have hlen : (pre ++ [a, b]).length = pre.length + 2 := by simp
  have h2 : 2 ≤ (pre ++ [a, b]).length := by omega
  have hgl : (pre ++ [a, b]).getLast? = some b := by
    simp [List.getLast?_append]
  have hgd : (pre ++ [a, b]).getD ((pre ++ [a, b]).length - 2) "" = a := by
    rw [hlen]
    have : pre.length + 2 - 2 = pre.length := by omega
    rw [this, List.getD_eq_getElem?_getD, List.getElem?_append_right (le_refl _)]
    simp
  simp only [h2, if_true, hgl, hgd]
  rfl

/-! ## The claims -/

/-- State after registering Status::Active, used by the C3 witness. -/
def regOne : EnumInstrumenter :=
  { EnumInstrumenter.new with enum_variants := [("Status::Active", 0)] }


/-- C1: on the test scenario (enum Status {Active, Inactive, Pending(i32)};
let status = Status::Active; let mut other = Status::Pending(42);
other = Status::Inactive; process_status(Status::Active);) the transformer,
started on a fresh instrumenter, injects the call (location 1, state 0)
before the first let binding, injects nothing for Status::Pending(42),
injects (location 2, state 1) before the assignment, and replaces the call
argument Status::Active by a block that performs the call (location 3,
state 0) and then evaluates to Status::Active. -/
theorem claim_c1_test_scenario :
    visit_file EnumInstrumenter.new testFile =
      (testFileOut,
       { enum_types := ["Status"]
         enum_variants := [("Status::Active", 0), ("Status::Inactive", 1)]
         location_counter := 4
         in_const_context := false
         emitted := [(1, 0), (2, 1), (3, 0)] }) := by decide

/-- C2: for every path, the classifier returns some (enum, variant) iff the
path has at least two segments and the second-to-last one is a known enum
type, in which case the pair is exactly (second-to-last, last) segment;
earlier segments of longer paths are irrelevant.  (The classifier is a pure
function of the state: it returns no state, so it has no side effects.) -/
theorem claim_c2_classifier_contract :
    (∀ (s : EnumInstrumenter) (segs : List String) (en vn : String),
        extract_enum_info s segs = some (en, vn) ↔
          2 ≤ segs.length ∧ segs.getD (segs.length - 2) "" = en ∧
          segs.getLast? = some vn ∧ en ∈ s.enum_types) ∧
    (∀ (s : EnumInstrumenter) (pre : List String) (a b : String),
        extract_enum_info s (pre ++ [a, b]) = extract_enum_info s [a, b]) :=
  ⟨extract_enum_info_some, extract_enum_info_drop_prefix⟩

/-- C3: a variant key not yet registered is assigned state id equal to the
current registry size and appended to the registry; a registered key is
returned its existing id with the registry untouched; and across any run
over any file set the registry only ever grows at the end, so an id, once
assigned, never changes. -/
theorem claim_c3_variant_registry :
    (∀ (s : EnumInstrumenter) (en vn : String),
        s.in_const_context = false →
        lookupId s.enum_variants (en ++ "::" ++ vn) = none →
        create_instrumentation_call s en vn =
          (some (s.location_counter, s.enum_variants.length),
           { s with
              location_counter := s.location_counter + 1
              enum_variants :=
                s.enum_variants ++ [(en ++ "::" ++ vn, s.enum_variants.length)]
              emitted :=
                s.emitted ++ [(s.location_counter, s.enum_variants.length)] })) ∧
    (∀ (s : EnumInstrumenter) (en vn : String) (i : Nat),
        s.in_const_context = false →
        lookupId s.enum_variants (en ++ "::" ++ vn) = some i →
        create_instrumentation_call s en vn =
          (some (s.location_counter, i),
           { s with
              location_counter := s.location_counter + 1
              emitted := s.emitted ++ [(s.location_counter, i)] })) ∧
    (∀ (s : EnumInstrumenter) (files : List (List Item)),
        s.enum_variants <+: (visit_files s files).2.enum_variants) := by
  refine ⟨?_, ?_, ?_⟩
  · intro s en vn hflag hl
    unfold create_instrumentation_call
    simp [hflag, hl]
  · intro s en vn i hflag hl
    unfold create_instrumentation_call
    simp [hflag, hl]
  · intro s files
    exact (visit_files_evolves s files).2.1

theorem claim_c3_variant_registry_witness :
    (EnumInstrumenter.new.in_const_context = false ∧
     lookupId EnumInstrumenter.new.enum_variants ("Status" ++ "::" ++ "Active") = none ∧
     create_instrumentation_call EnumInstrumenter.new "Status" "Active" =
       (some (EnumInstrumenter.new.location_counter,
              EnumInstrumenter.new.enum_variants.length),
        { EnumInstrumenter.new with
           location_counter := EnumInstrumenter.new.location_counter + 1
           enum_variants := EnumInstrumenter.new.enum_variants ++
             [("Status" ++ "::" ++ "Active", EnumInstrumenter.new.enum_variants.length)]
           emitted := EnumInstrumenter.new.emitted ++
             [(EnumInstrumenter.new.location_counter,
               EnumInstrumenter.new.enum_variants.length)] })) ∧
    (regOne.in_const_context = false ∧
     lookupId regOne.enum_variants ("Status" ++ "::" ++ "Active") = some 0 ∧
     create_instrumentation_call regOne "Status" "Active" =
       (some (regOne.location_counter, 0),
        { regOne with
           location_counter := regOne.location_counter + 1
           emitted := regOne.emitted ++ [(regOne.location_counter, 0)] })) :=
  ⟨⟨rfl, by decide, claim_c3_variant_registry.1 EnumInstrumenter.new "Status" "Active" rfl (by decide)⟩,
   ⟨rfl, by decide, claim_c3_variant_registry.2.1 regOne "Status" "Active" 0 rfl (by decide)⟩⟩

/-- C4: across one whole run over any file set, the location ids carried by
the emitted instrumentation calls are exactly 1, 2, 3, ... in order, one per
emitted call, with no gaps and no repeats, whatever injection shape produced
each call. -/
theorem claim_c4_location_sequence (files : List (List Item)) :
    ((visit_files EnumInstrumenter.new files).2.emitted).map Prod.fst =
      List.range' 1 (visit_files EnumInstrumenter.new files).2.emitted.length := by
  obtain ⟨-, -, -, t, he, hm, -⟩ := visit_files_evolves EnumInstrumenter.new files
  have hemit : (visit_files EnumInstrumenter.new files).2.emitted = t := by
    simpa [EnumInstrumenter.new] using he
  rw [hemit]
  simpa [EnumInstrumenter.new] using hm

/-- C5: any bare variant usage nested anywhere inside a const fn body, a
const item initializer or a static item initializer is never instrumented:
visiting such an item leaves the syntax tree and the whole state except the
set of seen enum type names unchanged (in particular no call is emitted, no
location id is consumed and no variant id is registered), however deep the
usage is and whatever const scopes are nested inside. -/
theorem claim_c5_const_suppression (s : EnumInstrumenter) :
    (∀ body, ∃ ts, visit_item s (Item.fnItem true body) =
        (Item.fnItem true body, { s with enum_types := ts })) ∧
    (∀ e, ∃ ts, visit_item s (Item.constItem e) =
        (Item.constItem e, { s with enum_types := ts })) ∧
    (∀ e, ∃ ts, visit_item s (Item.staticItem e) =
        (Item.staticItem e, { s with enum_types := ts })) := by
  refine ⟨?_, ?_, ?_⟩
  · intro body
    obtain ⟨ts, h1⟩ := visit_anns_const { s with in_const_context := true } body rfl
    refine ⟨ts, ?_⟩
    simp only [visit_item, if_true,
      instrument_pass_const { s with in_const_context := true } body rfl, h1]
  · intro e
    obtain ⟨ts, h1⟩ := visit_expr_const { s with in_const_context := true } e rfl
    refine ⟨ts, ?_⟩
    simp only [visit_item, h1]
  · intro e
    obtain ⟨ts, h1⟩ := visit_expr_const { s with in_const_context := true } e rfl
    refine ⟨ts, ?_⟩
    simp only [visit_item, h1]

/-- C10: invoked with the const-context flag set, create_instrumentation_call
returns none and the state is exactly unchanged: the location counter is not
incremented, no variant key is registered, nothing is emitted. -/
theorem claim_c10_const_frame (s : EnumInstrumenter) (en vn : String)
    (h : s.in_const_context = true) :
    create_instrumentation_call s en vn = (none, s) :=
  create_const s en vn h

theorem claim_c10_const_frame_witness :
    ({ EnumInstrumenter.new with in_const_context := true } : EnumInstrumenter).in_const_context = true ∧
    create_instrumentation_call
        { EnumInstrumenter.new with in_const_context := true } "Status" "Active" =
      (none, { EnumInstrumenter.new with in_const_context := true }) :=
  ⟨rfl, claim_c10_const_frame _ "Status" "Active" rfl⟩

/-- C7: a call argument that is a bare classified path (outside const
context) is annotated for wrapping with the current location and the
variant's state id, and the replacement block evaluates by performing the
instrumentation call exactly once, strictly before the original argument is
evaluated, and produces exactly the original argument's value; the original
argument is a value, evaluated exactly once with no effects of its own. -/
theorem claim_c7_wrap_preserves_value (s : EnumInstrumenter) (segs : List String)
    (en vn : String) (hflag : s.in_const_context = false)
    (hcls : extract_enum_info s segs = some (en, vn)) :
    ∃ n,
      (wrap_args s (ExprList.cons (Expr.path segs) ExprList.nil)).1 =
        [some (s.location_counter, n)] ∧
      evalExpr (wrapExpr s.location_counter n (Expr.path segs)) =
        ((s.location_counter, n) :: (evalExpr (Expr.path segs)).1,
         (evalExpr (Expr.path segs)).2) ∧
      evalExpr (Expr.path segs) = ([], some (Expr.path segs)) := by
  cases hl : lookupId s.enum_variants (en ++ "::" ++ vn) with
  | some i =>
      refine ⟨i, ?_, rfl, rfl⟩
      simp only [wrap_args, hcls]
      unfold create_instrumentation_call
      simp [hflag, hl]
  | none =>
      refine ⟨s.enum_variants.length, ?_, rfl, rfl⟩
      simp only [wrap_args, hcls]
      unfold create_instrumentation_call
      simp [hflag, hl]

/-- State with the enum Status already recorded, for witnesses. -/
def stateStatus : EnumInstrumenter :=
  { EnumInstrumenter.new with enum_types := ["Status"] }

theorem claim_c7_wrap_preserves_value_witness :
    stateStatus.in_const_context = false ∧
    extract_enum_info stateStatus ["Status", "Active"] = some ("Status", "Active") ∧
    (∃ n,
      (wrap_args stateStatus
          (ExprList.cons (Expr.path ["Status", "Active"]) ExprList.nil)).1 =
        [some (stateStatus.location_counter, n)] ∧
      evalExpr (wrapExpr stateStatus.location_counter n (Expr.path ["Status", "Active"])) =
        ((stateStatus.location_counter, n) ::
          (evalExpr (Expr.path ["Status", "Active"])).1,
         (evalExpr (Expr.path ["Status", "Active"])).2) ∧
      evalExpr (Expr.path ["Status", "Active"]) =
        ([], some (Expr.path ["Status", "Active"]))) :=
  ⟨rfl, by decide,
   claim_c7_wrap_preserves_value stateStatus ["Status", "Active"] "Status" "Active"
     rfl (by decide)⟩

/-- C8 (amended): the nodes injected by a previous pass are left exactly
unchanged by a renewed visit: an injected call statement (its arguments are
integer literals and its callee path is never classified from an argument
position) and an injected wrapping block (its statements match no
instrumentation pattern) are fixed points of the visitor, with the state
untouched.  Re-running the whole tool on its own output does, however,
instrument let-binding and assignment usages a second time, since their
right-hand sides are still bare classified paths (see the counterexample). -/
theorem claim_c8_injected_nodes_stable :
    (∀ (s : EnumInstrumenter) (l st : Nat),
        visit_stmt s (instrCallStmt l st) = (instrCallStmt l st, s)) ∧
    (∀ (s : EnumInstrumenter) (l st : Nat) (segs : List String),
        visit_expr s (wrapExpr l st (Expr.path segs)) =
          (wrapExpr l st (Expr.path segs), s)) :=
  ⟨visit_stmt_instrCallStmt, visit_expr_wrapExpr⟩

/-- C8 counterexample: running the transformer a second time, as a fresh
run, over the output of the first run on the test scenario emits two new
instrumentation calls (for the let binding and the assignment whose
right-hand sides are still bare classified paths), so the output changes
again: re-running is not free of additional instrumentation around the
usages instrumented in the first pass. -/
theorem claim_c8_counterexample :
    (visit_file EnumInstrumenter.new
        (visit_file EnumInstrumenter.new testFile).1).2.emitted = [(1, 0), (2, 1)] ∧
    (visit_file EnumInstrumenter.new
        (visit_file EnumInstrumenter.new testFile).1).1 ≠
      (visit_file EnumInstrumenter.new testFile).1 := by
  constructor
  · decide
  · decide

/-- C6 helper: a bare-path let binding whose enum type is not yet known is
not instrumented by the statement pass. -/
theorem stmt_injection_unknown (s : EnumInstrumenter) (E V : String)
    (hnew : E ∉ s.enum_types) :
    stmt_injection s (Stmt.localInit (Expr.path [E, V])) = (none, s) := by
  simp only [stmt_injection, extract_two]
  rw [if_neg hnew]

/-- One-usage function body (let _ = E::V;) used by the C6 scenario. -/
def c6Body (E V : String) : StmtList :=
  StmtList.cons (Stmt.localInit (Expr.path [E, V])) StmtList.nil

/-- C6: in traversal order, a bare usage of E::V reached before E's
declaration is visited is not instrumented, and the same usage reached
after it is: on the file (fn with one usage; enum E; fn with the same
usage), starting from any state that does not yet know E and is not in
const context, the first function's body is unchanged while the second
function's body gets an instrumentation call injected before the usage,
consuming one location id and emitting exactly one call. -/
theorem claim_c6_declaration_before_use (s : EnumInstrumenter) (E V : String)
    (hflag : s.in_const_context = false) (hnew : E ∉ s.enum_types) :
    ∃ n vs,
      visit_file s
        [Item.fnItem false (c6Body E V),
         Item.enumItem E,
         Item.fnItem false (c6Body E V)] =
      ([Item.fnItem false (c6Body E V),
        Item.enumItem E,
        Item.fnItem false
          (StmtList.cons (instrCallStmt s.location_counter n) (c6Body E V))],
       { s with
          enum_types := s.enum_types ++ [E]
          enum_variants := vs
          location_counter := s.location_counter + 1
          emitted := s.emitted ++ [(s.location_counter, n)] }) := by
  have hstep1 : visit_item s (Item.fnItem false (c6Body E V)) =
      (Item.fnItem false (c6Body E V), s) := by
    simp only [c6Body, visit_item, Bool.false_eq_true, if_false, instrument_pass,
      stmt_injection_unknown s E V hnew, visit_anns, visit_stmt, visit_expr]
  have hstep2 : visit_item s (Item.enumItem E) =
      (Item.enumItem E, { s with enum_types := s.enum_types ++ [E] }) := by
    simp only [visit_item, insertEnumType]
    rw [if_neg hnew]
  cases hl : lookupId s.enum_variants (E ++ "::" ++ V) with
  | some i =>
      refine ⟨i, s.enum_variants, ?_⟩
      have hinj : stmt_injection { s with enum_types := s.enum_types ++ [E] }
          (Stmt.localInit (Expr.path [E, V])) =
          (some (s.location_counter, i),
           { s with enum_types := s.enum_types ++ [E]
                    location_counter := s.location_counter + 1
                    emitted := s.emitted ++ [(s.location_counter, i)] }) := by
        simp only [stmt_injection, extract_two]
        rw [if_pos (by simp)]
        unfold create_instrumentation_call
        simp [hflag, hl]
      have hstep3 : visit_item { s with enum_types := s.enum_types ++ [E] }
          (Item.fnItem false (c6Body E V)) =
          (Item.fnItem false
            (StmtList.cons (instrCallStmt s.location_counter i) (c6Body E V)),
           { s with enum_types := s.enum_types ++ [E]
                    location_counter := s.location_counter + 1
                    emitted := s.emitted ++ [(s.location_counter, i)] }) := by
        simp only [c6Body, visit_item, Bool.false_eq_true, if_false, instrument_pass,
          hinj, visit_anns, visit_stmt, visit_expr]
      simp only [visit_file, hstep1, hstep2, hstep3]
  | none =>
      refine ⟨s.enum_variants.length,
        s.enum_variants ++ [(E ++ "::" ++ V, s.enum_variants.length)], ?_⟩
      have hinj : stmt_injection { s with enum_types := s.enum_types ++ [E] }
          (Stmt.localInit (Expr.path [E, V])) =
          (some (s.location_counter, s.enum_variants.length),
           { s with enum_types := s.enum_types ++ [E]
                    enum_variants :=
                      s.enum_variants ++ [(E ++ "::" ++ V, s.enum_variants.length)]
                    location_counter := s.location_counter + 1
                    emitted := s.emitted ++ [(s.location_counter, s.enum_variants.length)] }) := by
        simp only [stmt_injection, extract_two]
        rw [if_pos (by simp)]
        unfold create_instrumentation_call
        simp [hflag, hl]
      have hstep3 : visit_item { s with enum_types := s.enum_types ++ [E] }
          (Item.fnItem false (c6Body E V)) =
          (Item.fnItem false
            (StmtList.cons (instrCallStmt s.location_counter s.enum_variants.length)
              (c6Body E V)),
           { s with enum_types := s.enum_types ++ [E]
                    enum_variants :=
                      s.enum_variants ++ [(E ++ "::" ++ V, s.enum_variants.length)]
                    location_counter := s.location_counter + 1
                    emitted := s.emitted ++ [(s.location_counter, s.enum_variants.length)] }) := by
        simp only [c6Body, visit_item, Bool.false_eq_true, if_false, instrument_pass,
          hinj, visit_anns, visit_stmt, visit_expr]
      simp only [visit_file, hstep1, hstep2, hstep3]

theorem claim_c6_declaration_before_use_witness :
    EnumInstrumenter.new.in_const_context = false ∧
    "Status" ∉ EnumInstrumenter.new.enum_types ∧
    (∃ n vs,
      visit_file EnumInstrumenter.new
        [Item.fnItem false (c6Body "Status" "Active"),
         Item.enumItem "Status",
         Item.fnItem false (c6Body "Status" "Active")] =
      ([Item.fnItem false (c6Body "Status" "Active"),
        Item.enumItem "Status",
        Item.fnItem false
          (StmtList.cons (instrCallStmt EnumInstrumenter.new.location_counter n)
            (c6Body "Status" "Active"))],
       { EnumInstrumenter.new with
          enum_types := EnumInstrumenter.new.enum_types ++ ["Status"]
          enum_variants := vs
          location_counter := EnumInstrumenter.new.location_counter + 1
          emitted := EnumInstrumenter.new.emitted ++
            [(EnumInstrumenter.new.location_counter, n)] })) :=
  ⟨rfl, by simp [EnumInstrumenter.new],
   claim_c6_declaration_before_use EnumInstrumenter.new "Status" "Active" rfl
     (by simp [EnumInstrumenter.new])⟩

/-- C9 helper: in a directory run, the first failing .rs file aborts the
walk with its error wrapped as ErrorProcessing together with that file's
path; entries after it are not touched. -/
theorem process_directory_first_error
    (pre : List (Except String SimEntry)) (inst inst' : EnumInstrumenter)
    (f : SimEntry) (post : List (Except String SimEntry)) (e : String)
    (hpre : process_directory inst pre = Except.ok inst')
    (hrs : f.isRsFile = true)
    (herr : process_file inst' f = Except.error e) :
    process_directory inst (pre ++ Except.ok f :: post) =
      Except.error (RunError.errorProcessing f.path e) := by
  induction pre generalizing inst with
  | nil =>
      have hinst : inst' = inst := by
        simpa [process_directory] using hpre.symm
      subst hinst
      simp only [List.nil_append, process_directory, hrs, if_true, herr]
  | cons entry rest ih =>
      cases entry with
      | error e' => simp [process_directory] at hpre
      | ok g =>
          by_cases hg : g.isRsFile = true
          · simp only [process_directory, hg, if_true] at hpre ⊢
            cases hpf : process_file inst g with
            | error e2 =>
                rw [hpf] at hpre
                exact Except.noConfusion hpre
            | ok p =>
                rw [hpf] at hpre
                exact ih p.2 hpre
          · simp only [process_directory, hg, if_false] at hpre ⊢
            exact ih inst hpre

/-- C9 (amended): in a directory run every per-file error (read, parse or
write failure on a specific .rs file) is wrapped as
ErrorProcessing(path, cause) and aborts the run at once, with no retry and
no skipping; in a single-file run the error also aborts the run but is
propagated to the caller unwrapped, without the file's path attached. -/
theorem claim_c9_error_wrapping :
    (∀ (pre : List (Except String SimEntry)) (inst inst' : EnumInstrumenter)
        (f : SimEntry) (post : List (Except String SimEntry)) (e : String),
        process_directory inst pre = Except.ok inst' →
        f.isRsFile = true →
        process_file inst' f = Except.error e →
        process_directory inst (pre ++ Except.ok f :: post) =
          Except.error (RunError.errorProcessing f.path e)) ∧
    (∀ (inst : EnumInstrumenter) (f : SimEntry) (e : String),
        process_file inst f = Except.error e →
        run_single_file inst f = Except.error (RunError.external e)) := by
  constructor
  · intro pre inst inst' f post e hpre hrs herr
    exact process_directory_first_error pre inst inst' f post e hpre hrs herr
  · intro inst f e herr
    simp only [run_single_file, herr]

/-- A file whose read/parse step fails, for the C9 scenario. -/
def badEntry : SimEntry :=
  { path := "bad.rs"
    isRsFile := true
    parsed := Except.error "parse error"
    writeOk := Except.ok () }

theorem claim_c9_error_wrapping_witness :
    (process_directory EnumInstrumenter.new [] = Except.ok EnumInstrumenter.new ∧
     badEntry.isRsFile = true ∧
     process_file EnumInstrumenter.new badEntry = Except.error "parse error" ∧
     process_directory EnumInstrumenter.new [Except.ok badEntry] =
       Except.error (RunError.errorProcessing "bad.rs" "parse error")) ∧
    (run_single_file EnumInstrumenter.new badEntry =
       Except.error (RunError.external "parse error")) :=
  ⟨⟨rfl, rfl, rfl,
    claim_c9_error_wrapping.1 [] EnumInstrumenter.new EnumInstrumenter.new
      badEntry [] "parse error" rfl rfl rfl⟩,
   claim_c9_error_wrapping.2 EnumInstrumenter.new badEntry "parse error" rfl⟩

/-- C9 counterexample: invoked on a single file whose parse fails, main
propagates the raw parse error to its caller without wrapping it with the
file's path: the claim that per-file errors are wrapped with the path in
single-file runs as well is false. -/
theorem claim_c9_counterexample :
    run_single_file EnumInstrumenter.new badEntry =
      Except.error (RunError.external "parse error") := rfl

end SgInstrument
